import Mathlib

/-!
Shallow embedding of the `ell` evaluation engine (`src/ell/evaluation.py`).

The engine consists of:
* `validate_criteria` — the pydantic field validator that normalizes a criteria
  argument (a list of named callables or a name-to-callable mapping) into a
  name-to-callable mapping;
* `Evaluation._process_single` — invokes the language-model program (LMP) on one
  datapoint (spreading a `list` input positionally and a `dict` input as keyword
  arguments), normalizes the LMP output to a list, and scores every output with
  every criterion, coercing each score with `float(...)`;
* `Evaluation.run` — merges API parameters, constructs an `EvaluationRun`
  record, swaps the global verbosity flag for the duration of the run, drains a
  worker pool in completion order, accumulating outputs and per-criterion
  score lists, and finally attaches the accumulated data and an end timestamp.

Modelling conventions:
* Python values are the inductive `PyVal`; Python `float` is modelled as `ℚ`.
* Python dicts are association lists over `String` keys; `dictSet` mirrors
  Python assignment (update in place, insert at the end), so `pyDictMerge`
  mirrors the dict-unpacking merge `\x7b**a, **b\x7d`.
* Exceptions are `Except String`; error strings reproduce the CPython /
  source-level messages.
* The global `config.verbose` flag is threaded explicitly through a `Config`
  state: `Evaluation.run` takes the pre-call `Config` and returns the post-call
  `Config` next to its result.
* The nondeterministic `as_completed` completion order of the thread pool is an
  explicit parameter `completed : List Datapoint`; theorems that need it
  hypothesize it is a permutation of the dataset.
* Wall-clock time is a pair `t0 dt : Nat`: `start_time = t0` and the second
  `datetime.now()` call yields `t0 + dt` (the clock is monotone).
* The `tqdm` progress update is observable only through the exceptions it can
  raise (`statistics.mean` of an empty list, `output[0]` of an empty list);
  `displayStep` models exactly those.
-/

namespace Ell

/-- Embedded Python values appearing as datapoint inputs, LMP outputs and
criterion results. Python floats are modelled as rationals. -/
inductive PyVal where
  | vnone
  | vbool (b : Bool)
  | vint (n : Int)
  | vfloat (q : ℚ)
  | vstr (s : String)
  | vlist (xs : List PyVal)
  | vtuple (xs : List PyVal)
  | vdict (entries : List (String × PyVal))

/-- The name of the Python type of a value, as `type(v).__name__`. -/
def pyTypeName : PyVal → String
  | .vnone => "NoneType"
  | .vbool _ => "bool"
  | .vint _ => "int"
  | .vfloat _ => "float"
  | .vstr _ => "str"
  | .vlist _ => "list"
  | .vtuple _ => "tuple"
  | .vdict _ => "dict"

/-- How `type(v)` renders inside a Python f-string: `<class 'name'>`. -/
def pyClassRepr (name : String) : String :=
  "<class \x27" ++ name ++ "\x27>"

/-- Whether a value is a Python abstract `Sequence` (`list`, `tuple` and `str`
are Sequences). Used only to state spec claims that speak of sequences; the
source itself tests `isinstance(..., list)`. -/
def pyIsSequence : PyVal → Bool
  | .vlist _ => true
  | .vtuple _ => true
  | .vstr _ => true
  | _ => false

/-- Numeric value of a decimal digit character. -/
def digitVal (c : Char) : Option Nat :=
  if c.isDigit then some (c.toNat - 48) else none

/-- Reads a nonempty all-digit string as a natural number. -/
def readDigits : List Char → Option Nat
  | [] => none
  | cs => cs.foldl (fun acc c => acc.bind fun a => (digitVal c).map fun d => a * 10 + d) (some 0)

/-- Splits a character list at the first dot, if any. -/
def splitDot : List Char → List Char × Option (List Char)
  | [] => ([], none)
  | c :: rest =>
    if c = '.' then ([], some rest)
    else
      let p := splitDot rest
      (c :: p.1, p.2)

/-- Parses an unsigned decimal literal (`12`, `12.`, `.5`, `3.25`). -/
def parseUnsigned (cs : List Char) : Option ℚ :=
  match splitDot cs with
  | (ip, none) => (readDigits ip).map fun n => (n : ℚ)
  | ([], some []) => none
  | ([], some f) => (readDigits f).map fun m => (m : ℚ) / (10 : ℚ) ^ f.length
  | (ip, some []) => (readDigits ip).map fun n => (n : ℚ)
  | (ip, some f) =>
    (readDigits ip).bind fun n =>
      (readDigits f).map fun m => (n : ℚ) + (m : ℚ) / (10 : ℚ) ^ f.length

/-- Models the core of Python `float(str)` on plain signed decimal literals
(exponents, `inf`, `nan` and surrounding whitespace are not modelled; no claim
exercises them). -/
def parseFloatQ (s : String) : Option ℚ :=
  match s.toList with
  | '-' :: rest => (parseUnsigned rest).map Neg.neg
  | '+' :: rest => parseUnsigned rest
  | cs => parseUnsigned cs

/-- Models the Python builtin `float(...)`: numbers and numeric strings
convert, everything else raises. Error strings follow CPython. -/
def pyFloat : PyVal → Except String ℚ
  | .vbool b => .ok (if b then 1 else 0)
  | .vint n => .ok (n : ℚ)
  | .vfloat q => .ok q
  | .vstr s =>
    match parseFloatQ s with
    | some q => .ok q
    | none => .error ("could not convert string to float: \x27" ++ s ++ "\x27")
  | v =>
    .error ("float() argument must be a string or a real number, not \x27" ++ pyTypeName v ++ "\x27")

/-- Lookup in a Python dict modelled as an association list. -/
def dictGet {α : Type} : List (String × α) → String → Option α
  | [], _ => none
  | kv :: rest, k => if kv.1 = k then some kv.2 else dictGet rest k

/-- Lookup with a default; `dictGetD d k []` models `defaultdict(list)` access. -/
def dictGetD {α : Type} (d : List (String × α)) (k : String) (v₀ : α) : α :=
  (dictGet d k).getD v₀

/-- Python dict assignment `d[k] = v`: updates an existing key in place,
appends a new key at the end. -/
def dictSet {α : Type} : List (String × α) → String → α → List (String × α)
  | [], k, v => [(k, v)]
  | kv :: rest, k, v => if kv.1 = k then (k, v) :: rest else kv :: dictSet rest k v

/-- Python dict-unpacking merge, as in the source line
`run_api_params = ..default_api_params.. merged with ..api_params..`:
entries of `b` override entries of `a`. -/
def pyDictMerge {α : Type} (a b : List (String × α)) : List (String × α) :=
  b.foldl (fun acc kv => dictSet acc kv.1 kv.2) a

/-- Whether `pat` occurs at the start of a character list. -/
def leadsWith : List Char → List Char → Bool
  | [], _ => true
  | _ :: _, [] => false
  | a :: as, b :: bs => a == b && leadsWith as bs

/-- Whether `pat` occurs anywhere inside a character list. -/
def hasSubChars (pat : List Char) : List Char → Bool
  | [] => leadsWith pat []
  | c :: rest => leadsWith pat (c :: rest) || hasSubChars pat rest

/-- Whether string `s` contains `pat` as a substring. Used to formalize
"the error message identifies the offending value's type". -/
def hasSub (s pat : String) : Bool :=
  hasSubChars pat.toList s.toList

/-- One raw element of a criteria argument, before validation: whether it is
callable, its `__name__` attribute (if any), and its Python type name. -/
structure RawCriterion where
  isCallable : Bool
  pyName : Option String
  typeName : String
  deriving DecidableEq

/-- The argument shapes `validate_criteria` accepts (the `Union` in its
signature, plus the ill-typed fallthrough). -/
inductive CriteriaArg where
  | ofList (cs : List RawCriterion)
  | ofDict (d : List (String × RawCriterion))
  | other (typeName : String)

/-- The loop of the list branch of `validate_criteria`: checks each element is
callable and has a usable `__name__`, and inserts it under its name
(later duplicates overwrite earlier ones). -/
def validateCriteriaList :
    List (String × RawCriterion) → List RawCriterion → Except String (List (String × RawCriterion))
  | acc, [] => .ok acc
  | acc, c :: rest =>
    if c.isCallable = false then
      .error ("Each criterion must be a callable, got " ++ pyClassRepr c.typeName)
    else
      match c.pyName with
      | none => .error "Each criterion in a list must have a name (not a lambda)"
      | some n =>
        if n = "<lambda>" then
          .error "Each criterion in a list must have a name (not a lambda)"
        else validateCriteriaList (dictSet acc n c) rest

/-- First non-callable entry of a criteria dict, if any. -/
def firstNonCallable : List (String × RawCriterion) → Option (String × RawCriterion)
  | [] => none
  | nc :: rest => if nc.2.isCallable = false then some nc else firstNonCallable rest

/-- The pydantic validator `Evaluation.validate_criteria`. -/
def validate_criteria : CriteriaArg → Except String (List (String × RawCriterion))
  | .ofList cs => validateCriteriaList [] cs
  | .ofDict d =>
    match firstNonCallable d with
    | some nc =>
      .error ("Criterion \x27" ++ nc.1 ++ "\x27 must be a callable, got " ++
        pyClassRepr nc.2.typeName)
    | none => .ok d
  | .other ty =>
    .error ("criteria must be either a list of callables or a dictionary, got " ++
      pyClassRepr ty)

/-- The global `ell.configurator.config` state, restricted to the one field the
evaluation engine touches. -/
structure Config where
  verbose : Bool

/-- A dataset row: `Datapoint = Dict[str, Any]`. -/
abbrev Datapoint := List (String × PyVal)

/-- A validated criterion at run time. The Python annotation promises a float
result but is not enforced, so the model returns an arbitrary value, to be
coerced by `pyFloat`. -/
abbrev Criterion := Datapoint → PyVal → PyVal

/-- How `_process_single` invokes the LMP: `lmp(*input, ...)` for a list input,
`lmp(**input, ...)` for a dict input. -/
inductive LMPArgs where
  | positional (args : List PyVal)
  | named (kwargs : List (String × PyVal))

/-- A language-model program: an external callable receiving the (global)
configuration state, the spread arguments and the `api_params` keyword, and
either returning a value or raising. -/
abbrev LMP := Config → LMPArgs → List (String × PyVal) → Except String PyVal

/-- The `Evaluation` pydantic model (post-validation, so `criteria` is already
a name-to-callable mapping). -/
structure Evaluation where
  name : String
  dataset : List Datapoint
  criteria : List (String × Criterion)
  default_api_params : List (String × PyVal)

/-- The `EvaluationRun` pydantic model with its field defaults. -/
structure EvaluationRun where
  scores : List (String × List ℚ) := []
  dataset : List Datapoint := []
  lmp : Option LMP := none
  outputs : List PyVal := []
  api_params : List (String × PyVal) := []
  start_time : Nat := 0
  end_time : Option Nat := none

/-- The `inputs` property of `EvaluationRun`: the `input` field of each
datapoint of `run.dataset`, in dataset order (`None`-free lookups modelled
with `Option`). -/
def EvaluationRun.inputs (r : EvaluationRun) : List (Option PyVal) :=
  r.dataset.map fun d => dictGet d "input"

/-- Left-to-right effectful map over `Except`, as a Python list comprehension
evaluates: the first raising element aborts the whole comprehension. -/
def exceptMapList {α β : Type} (f : α → Except String β) : List α → Except String (List β)
  | [] => .ok []
  | x :: xs =>
    match f x with
    | .error m => .error m
    | .ok y =>
      match exceptMapList f xs with
      | .error m => .error m
      | .ok ys => .ok (y :: ys)

/-- Output normalization of `_process_single`: only an exact `list` counts as
multiple outputs; any other value is wrapped as a single output. -/
def normalizeOutput : PyVal → List PyVal
  | .vlist xs => xs
  | v => [v]

/-- The input-dispatch of `_process_single`: spread a `list` input
positionally, a `dict` input by keyword, raise `ValueError` otherwise
(and `KeyError` when the datapoint has no `input` key). -/
def invokeLmp (cfg : Config) (lmp : LMP) (dp : Datapoint)
    (api_params : List (String × PyVal)) : Except String PyVal :=
  match dictGet dp "input" with
  | some (.vlist xs) => lmp cfg (.positional xs) api_params
  | some (.vdict kw) => lmp cfg (.named kw) api_params
  | some v => .error ("Invalid input type: " ++ pyClassRepr (pyTypeName v))
  | none => .error "KeyError: \x27input\x27"

/-- The inner list comprehension of `_process_single`:
`float(crit(data_point, output)) for output in lmp_output`. -/
def scoreOutputs (dp : Datapoint) (crit : Criterion) (outs : List PyVal) :
    Except String (List ℚ) :=
  exceptMapList (fun o => pyFloat (crit dp o)) outs

/-- The dict comprehension of `_process_single`: per criterion name (in
criteria order), the list of coerced scores over the normalized outputs. -/
def scoreAll (dp : Datapoint) (criteria : List (String × Criterion)) (outs : List PyVal) :
    Except String (List (String × List ℚ)) :=
  exceptMapList (fun nc => (scoreOutputs dp nc.2 outs).map fun vals => (nc.1, vals)) criteria

/-- `Evaluation._process_single`. -/
def Evaluation.process_single (e : Evaluation) (cfg : Config) (lmp : LMP) (dp : Datapoint)
    (api_params : List (String × PyVal)) :
    Except String (List PyVal × List (String × List ℚ)) :=
  match invokeLmp cfg lmp dp api_params with
  | .error m => .error m
  | .ok lmpOutput =>
    if e.criteria.isEmpty then .ok (normalizeOutput lmpOutput, [])
    else
      match scoreAll dp e.criteria (normalizeOutput lmpOutput) with
      | .error m => .error m
      | .ok sc => .ok (normalizeOutput lmpOutput, sc)

/-- The merge loop of `run`:
`for name, value in result.items(): scores[name].extend(value)` over a
`defaultdict(list)` accumulator. -/
def extendScores (acc result : List (String × List ℚ)) : List (String × List ℚ) :=
  result.foldl (fun a nv => dictSet a nv.1 (dictGetD a nv.1 [] ++ nv.2)) acc

/-- The observable effect of the progress update after merging one task:
with criteria, `statistics.mean(scores[name])` raises on an empty list, then
`str(output[0])` raises on an empty output list; without criteria only the
latter applies. -/
def displayStep (e : Evaluation) (scores : List (String × List ℚ)) (output : List PyVal) :
    Except String Unit :=
  if e.criteria.isEmpty then
    if output.isEmpty then .error "IndexError: list index out of range" else .ok ()
  else
    if e.criteria.any fun nc => (dictGetD scores nc.1 []).isEmpty then
      .error "StatisticsError: mean requires at least one data point"
    else if output.isEmpty then .error "IndexError: list index out of range"
    else .ok ()

/-- The completion-draining loop of `run`: for each completed task, re-raise
its exception or merge its scores and outputs, then run the progress update.
`completed` is the `as_completed` order. -/
def runBody (e : Evaluation) (lmp : LMP) (api_params : List (String × PyVal)) (cfg : Config) :
    List Datapoint → List PyVal → List (String × List ℚ) →
    Except String (List PyVal × List (String × List ℚ))
  | [], outputs, scores => .ok (outputs, scores)
  | dp :: rest, outputs, scores =>
    match e.process_single cfg lmp dp api_params with
    | .error m => .error m
    | .ok res =>
      match displayStep e (extendScores scores res.2) res.1 with
      | .error m => .error m
      | .ok _ => runBody e lmp api_params cfg rest (outputs ++ res.1) (extendScores scores res.2)

/-- The parameter merge at the top of `run`: defaults overridden by the
caller's `api_params`; a `samples_per_datapoint` greater than one forces the
sample-count key `n`. -/
def runApiParamsDef (e : Evaluation) (api_params : Option (List (String × PyVal)))
    (samples_per_datapoint : Int) : List (String × PyVal) :=
  if samples_per_datapoint > 1 then
    dictSet (pyDictMerge e.default_api_params (api_params.getD [])) "n"
      (.vint samples_per_datapoint)
  else pyDictMerge e.default_api_params (api_params.getD [])

/-- The body of `run` between the verbosity swap and restore: construct the
record, drain the pool, attach outputs, scores (only when criteria are
configured) and the end timestamp. The source constructs the record with the
keyword `inputs=self.dataset`; `inputs` is a read-only property, not a model
field, and pydantic ignores unknown keywords, so `dataset` keeps its default
empty value. -/
def runToRecord (e : Evaluation) (lmp : LMP) (run_api_params : List (String × PyVal))
    (cfg : Config) (completed : List Datapoint) (t0 dt : Nat) : Except String EvaluationRun :=
  let evaluation_run : EvaluationRun :=
    { lmp := some lmp, api_params := run_api_params, start_time := t0 }
  match runBody e lmp run_api_params cfg completed [] [] with
  | .error m => .error m
  | .ok res =>
    .ok { evaluation_run with
          outputs := res.1,
          scores := if e.criteria.isEmpty then evaluation_run.scores else res.2,
          end_time := some (t0 + dt) }

/-- `Evaluation.run`. The global configuration state is passed in and returned;
the completion order of the worker pool is the parameter `completed`; the two
`datetime.now()` calls yield `t0` and `t0 + dt`. -/
def Evaluation.run (e : Evaluation) (lmp : LMP) (api_params : Option (List (String × PyVal)))
    (verbose : Bool) (samples_per_datapoint : Int) (completed : List Datapoint)
    (cfg : Config) (t0 dt : Nat) : Except String EvaluationRun × Config :=
  let run_api_params := runApiParamsDef e api_params samples_per_datapoint
  let original_verbose := cfg.verbose
  let cfgDuring : Config := { verbose := verbose }
  (runToRecord e lmp run_api_params cfgDuring completed t0 dt,
   { cfgDuring with verbose := original_verbose })

/-- The normalized outputs a given datapoint contributes, read off
`_process_single` (empty on the error branch, which successful runs exclude). -/
def outputsOf (e : Evaluation) (cfg : Config) (lmp : LMP)
    (api_params : List (String × PyVal)) (dp : Datapoint) : List PyVal :=
  match e.process_single cfg lmp dp api_params with
  | .ok res => res.1
  | .error _ => []

/-- The score list a given datapoint contributes under a given criterion name,
read off `_process_single`. -/
def scoreListOf (e : Evaluation) (cfg : Config) (lmp : LMP)
    (api_params : List (String × PyVal)) (dp : Datapoint) (name : String) : List ℚ :=
  match e.process_single cfg lmp dp api_params with
  | .ok res => dictGetD res.2 name []
  | .error _ => []

/-! Concrete data used by witnesses and counterexamples. -/

/-- A datapoint with a list input, as in `dataset=[dict(input=[1])]`. -/
def exDp : Datapoint := [("input", PyVal.vlist [PyVal.vint 1])]

/-- A datapoint whose input is a bare number. -/
def exDpNum : Datapoint := [("input", PyVal.vint 5)]

/-- A datapoint whose input is a tuple — a Python `Sequence` that is not a
`list`. -/
def exDpTuple : Datapoint := [("input", PyVal.vtuple [PyVal.vint 1])]

/-- An LMP that returns `7` whatever its arguments. -/
def exLmp7 : LMP := fun _ _ _ => .ok (.vint 7)

/-- An LMP that returns `0` whatever its arguments — in particular it would
succeed if the tuple input were spread positionally. -/
def exLmp0 : LMP := fun _ _ _ => .ok (.vint 0)

/-- An LMP that returns a tuple — a non-`list` value that output normalization
must wrap as a single output. -/
def exLmpTup : LMP := fun _ _ _ => .ok (.vtuple [.vint 1])

/-- An LMP that returns a two-element list — treated as two outputs. -/
def exLmpPair : LMP := fun _ _ _ => .ok (.vlist [.vint 7, .vint 8])

/-- A criterion returning the number `2`. -/
def exCrit2 : Criterion := fun _ _ => .vint 2

/-- A criterion returning `None`, which `float(...)` cannot convert. -/
def exCritNone : Criterion := fun _ _ => .vnone

/-- An evaluation with one datapoint and no criteria. -/
def exEvalPlain : Evaluation :=
  { name := "e", dataset := [exDp], criteria := [], default_api_params := [] }

/-- An evaluation with one datapoint and one numeric criterion. -/
def exEvalScored : Evaluation :=
  { name := "e", dataset := [exDp], criteria := [("c", exCrit2)], default_api_params := [] }

/-- An evaluation whose single criterion returns a non-numeric value. -/
def exEvalBad : Evaluation :=
  { name := "e", dataset := [exDp], criteria := [("c", exCritNone)], default_api_params := [] }

/-- An evaluation with one tuple-input datapoint and no criteria. -/
def exEvalTuple : Evaluation :=
  { name := "e", dataset := [exDpTuple], criteria := [], default_api_params := [] }

/-- An evaluation carrying default API parameters, for the merge claim. -/
def exEvalDefaults : Evaluation :=
  { name := "e", dataset := [exDp], criteria := [],
    default_api_params := [("temperature", PyVal.vint 1), ("n", PyVal.vint 9)] }

/-- A caller-supplied API-parameter override. -/
def exApiOverride : List (String × PyVal) := [("temperature", PyVal.vint 2)]

/-- The record a run of `exEvalScored` under `exLmp7` produces. -/
def exRunC2 : EvaluationRun :=
  { scores := [("c", [((2 : Int) : ℚ)])], dataset := [], lmp := some exLmp7,
    outputs := [PyVal.vint 7], api_params := [], start_time := 0, end_time := some 1 }

/-- The record a run of `exEvalPlain` under `exLmpPair` produces. -/
def exRunC3 : EvaluationRun :=
  { scores := [], dataset := [], lmp := some exLmpPair,
    outputs := [PyVal.vint 7, PyVal.vint 8], api_params := [], start_time := 0,
    end_time := some 1 }

/-- A raw criteria-list entry standing for a Python lambda: callable, but its
`__name__` is the anonymous `<lambda>`; its type is `function`. -/
def lambdaCrit : RawCriterion :=
  { isCallable := true, pyName := some "<lambda>", typeName := "function" }

/-- A raw criteria-list entry standing for a named function `accuracy`. -/
def namedCrit : RawCriterion :=
  { isCallable := true, pyName := some "accuracy", typeName := "function" }

/-! Supporting lemmas about the dictionary model. -/

theorem dictGet_dictSet_self {α : Type} (d : List (String × α)) (k : String) (v : α) :
    dictGet (dictSet d k v) k = some v := by
  induction d with
  | nil => simp [dictSet, dictGet]
  | cons kv rest ih =>
    by_cases h : kv.1 = k
    · simp [dictSet, h, dictGet]
    · simp [dictSet, h, dictGet, ih]

theorem dictGet_dictSet_ne {α : Type} (d : List (String × α)) (k : String) (v : α)
    (k2 : String) (h : k2 ≠ k) : dictGet (dictSet d k v) k2 = dictGet d k2 := by
  have hne : ¬ k = k2 := fun hh => h hh.symm
  induction d with
  | nil => simp [dictSet, dictGet, hne]
  | cons kv rest ih =>
    by_cases hk : kv.1 = k
    · simp [dictSet, hk, dictGet, hne]
    · simp only [dictSet, if_neg hk, dictGet]
      by_cases h2 : kv.1 = k2
      · simp [h2]
      · simp [h2, ih]

theorem dictGet_eq_none {α : Type} {d : List (String × α)} {k : String}
    (h : k ∉ d.map Prod.fst) : dictGet d k = none := by
  induction d with
  | nil => rfl
  | cons kv rest ih =>
    simp only [List.map_cons, List.mem_cons, not_or] at h
    have hne : ¬ kv.1 = k := fun hh => h.1 hh.symm
    simp [dictGet, hne, ih h.2]

theorem mem_of_dictGet_eq_some {α : Type} :
    ∀ {d : List (String × α)} {k : String} {v : α}, dictGet d k = some v → (k, v) ∈ d := by
  intro d
  induction d with
  | nil => intro k v h; cases h
  | cons kv rest ih =>
    intro k v h
    simp only [dictGet] at h
    by_cases hk : kv.1 = k
    · rw [if_pos hk] at h
      cases h
      subst hk
      exact List.mem_cons_self _ _
    · rw [if_neg hk] at h
      exact List.mem_cons_of_mem _ (ih h)

theorem dictGet_isSome_of_key_mem {α : Type} :
    ∀ {d : List (String × α)} {k : String}, k ∈ d.map Prod.fst → ∃ v, dictGet d k = some v := by
  intro d
  induction d with
  | nil => intro k h; cases h
  | cons kv rest ih =>
    intro k h
    by_cases hk : kv.1 = k
    · exact ⟨kv.2, by simp [dictGet, hk]⟩
    · simp only [List.map_cons, List.mem_cons] at h
      rcases h with h | h
      · exact absurd h.symm hk
      · obtain ⟨v, hv⟩ := ih h
        exact ⟨v, by simp [dictGet, hk, hv]⟩

theorem dictGet_of_mem_nodup {α : Type} :
    ∀ {d : List (String × α)}, (d.map Prod.fst).Nodup →
      ∀ {k : String} {v : α}, (k, v) ∈ d → dictGet d k = some v := by
  intro d
  induction d with
  | nil => intro _ k v h; cases h
  | cons kv rest ih =>
    intro hnd k v h
    simp only [List.map_cons, List.nodup_cons] at hnd
    rw [List.mem_cons] at h
    rcases h with h | h
    · cases h.symm
      simp [dictGet]
    · have hk : kv.1 ≠ k := by
        intro hh
        exact hnd.1 (hh ▸ List.mem_map_of_mem Prod.fst h)
      simp [dictGet, hk, ih hnd.2 h]

/-! Supporting lemmas about `exceptMapList` (Python comprehensions). -/

theorem exceptMapList_ok_forall2 {α β : Type} {f : α → Except String β} :
    ∀ {xs : List α} {ys : List β}, exceptMapList f xs = .ok ys →
      List.Forall₂ (fun x y => f x = .ok y) xs ys := by
  intro xs
  induction xs with
  | nil => intro ys h; cases h; exact List.Forall₂.nil
  | cons x xs ih =>
    intro ys h
    simp only [exceptMapList] at h
    cases hfx : f x with
    | error m => rw [hfx] at h; cases h
    | ok y =>
      rw [hfx] at h
      cases hrest : exceptMapList f xs with
      | error m => rw [hrest] at h; cases h
      | ok ys' =>
        rw [hrest] at h
        cases h
        exact List.Forall₂.cons hfx (ih hrest)

theorem exceptMapList_error_of_mem {α β : Type} {f : α → Except String β} {x : α} :
    ∀ {xs : List α}, x ∈ xs → (∀ y, f x ≠ .ok y) →
      ∃ m, exceptMapList f xs = .error m := by
  intro xs
  induction xs with
  | nil => intro h; cases h
  | cons z zs ih =>
    intro hmem hbad
    cases hfz : f z with
    | error m => exact ⟨m, by simp [exceptMapList, hfz]⟩
    | ok y =>
      have hzx : x ∈ zs := by
        rw [List.mem_cons] at hmem
        rcases hmem with h | h
        · exact absurd (h ▸ hfz) (hbad y)
        · exact h
      obtain ⟨m, hm⟩ := ih hzx hbad
      exact ⟨m, by simp [exceptMapList, hfz, hm]⟩

theorem forall2_mem_left {α β : Type} {r : α → β → Prop} :
    ∀ {as : List α} {bs : List β}, List.Forall₂ r as bs →
      ∀ {a : α}, a ∈ as → ∃ b, b ∈ bs ∧ r a b := by
  intro as bs h
  induction h with
  | nil => intro a ha; cases ha
  | cons hr _ ih =>
    intro a ha
    rw [List.mem_cons] at ha
    rcases ha with ha | ha
    · exact ⟨_, List.mem_cons_self _ _, ha ▸ hr⟩
    · obtain ⟨b, hb, hrb⟩ := ih ha
      exact ⟨b, List.mem_cons_of_mem _ hb, hrb⟩

theorem perm_flatten_of_perm {α : Type} {l₁ l₂ : List (List α)} (h : l₁.Perm l₂) :
    l₁.flatten.Perm l₂.flatten := by
  induction h with
  | nil => exact List.Perm.refl _
  | cons x _ ih => simpa using ih.append_left x
  | swap x y l =>
    simp only [List.flatten_cons, ← List.append_assoc]
    exact List.Perm.append_right _ List.perm_append_comm
  | trans _ _ ih1 ih2 => exact ih1.trans ih2

/-! Supporting lemmas about the score accumulator of the draining loop. -/

theorem extendScores_cons (acc : List (String × List ℚ)) (nv : String × List ℚ)
    (rest : List (String × List ℚ)) :
    extendScores acc (nv :: rest) =
      extendScores (dictSet acc nv.1 (dictGetD acc nv.1 [] ++ nv.2)) rest := rfl

theorem dictGet_extendScores_not_mem {k : String} :
    ∀ (task : List (String × List ℚ)) (acc : List (String × List ℚ)),
      k ∉ task.map Prod.fst → dictGet (extendScores acc task) k = dictGet acc k := by
  intro task
  induction task with
  | nil => intro acc _; rfl
  | cons nv rest ih =>
    intro acc h
    simp only [List.map_cons, List.mem_cons, not_or] at h
    rw [extendScores_cons, ih _ h.2, dictGet_dictSet_ne _ _ _ _ h.1]

theorem dictGet_extendScores_mem {k : String} {vals : List ℚ} :
    ∀ (task : List (String × List ℚ)) (acc : List (String × List ℚ)),
      (task.map Prod.fst).Nodup → (k, vals) ∈ task →
      dictGet (extendScores acc task) k = some (dictGetD acc k [] ++ vals) := by
  intro task
  induction task with
  | nil => intro acc _ hm; cases hm
  | cons nv rest ih =>
    intro acc hnd hm
    simp only [List.map_cons, List.nodup_cons] at hnd
    rw [List.mem_cons] at hm
    rw [extendScores_cons]
    rcases hm with hm | hm
    · cases hm.symm
      rw [dictGet_extendScores_not_mem _ _ hnd.1, dictGet_dictSet_self]
    · have hkmem : k ∈ rest.map Prod.fst := List.mem_map_of_mem Prod.fst hm
      have hk1 : ¬ k = nv.1 := fun hh => hnd.1 (hh ▸ hkmem)
      rw [ih _ hnd.2 hm]
      unfold dictGetD
      rw [dictGet_dictSet_ne _ _ _ _ hk1]

theorem dictGetD_foldExtend {keys : List String} (hnd : keys.Nodup) {k : String} (hk : k ∈ keys) :
    ∀ (tasks : List (List (String × List ℚ))), (∀ t ∈ tasks, t.map Prod.fst = keys) →
      ∀ acc, dictGetD (tasks.foldl extendScores acc) k [] =
        dictGetD acc k [] ++ (tasks.map fun t => dictGetD t k []).flatten := by
  intro tasks
  induction tasks with
  | nil => intro _ acc; simp
  | cons t rest ih =>
    intro hkeys acc
    simp only [List.foldl_cons, List.map_cons, List.flatten_cons]
    have htk : t.map Prod.fst = keys := hkeys t (List.mem_cons_self _ _)
    have hknd : (t.map Prod.fst).Nodup := htk ▸ hnd
    have hkmem : k ∈ t.map Prod.fst := htk ▸ hk
    obtain ⟨v, hv⟩ := dictGet_isSome_of_key_mem hkmem
    have hmem : (k, v) ∈ t := mem_of_dictGet_eq_some hv
    have hstep : dictGetD (extendScores acc t) k [] = dictGetD acc k [] ++ v := by
      unfold dictGetD
      rw [dictGet_extendScores_mem t acc hknd hmem]
      rfl
    have hvd : dictGetD t k [] = v := by
      unfold dictGetD
      rw [hv]
      rfl
    rw [ih (fun t2 ht2 => hkeys t2 (List.mem_cons_of_mem _ ht2)) (extendScores acc t),
      hstep, hvd, List.append_assoc]

/-! Supporting lemmas about `_process_single` and its comprehensions. -/

theorem scoreOutputs_ok_forall2 {dp : Datapoint} {crit : Criterion} {outs : List PyVal}
    {vals : List ℚ} (h : scoreOutputs dp crit outs = .ok vals) :
    List.Forall₂ (fun o v => pyFloat (crit dp o) = .ok v) outs vals :=
  exceptMapList_ok_forall2 h

theorem scoreAll_ok_forall2 {dp : Datapoint} {crits : List (String × Criterion)}
    {outs : List PyVal} {sc : List (String × List ℚ)} (h : scoreAll dp crits outs = .ok sc) :
    List.Forall₂ (fun nc nv => nv.1 = nc.1 ∧ scoreOutputs dp nc.2 outs = .ok nv.2) crits sc := by
  refine List.Forall₂.imp ?_ (exceptMapList_ok_forall2 h)
  intro nc nv hmap
  cases hs : scoreOutputs dp nc.2 outs with
  | error m => rw [hs] at hmap; cases hmap
  | ok vals =>
    rw [hs] at hmap
    cases hmap
    exact ⟨rfl, rfl⟩

theorem scoreAll_keys {dp : Datapoint} {crits : List (String × Criterion)} {outs : List PyVal}
    {sc : List (String × List ℚ)} (h : scoreAll dp crits outs = .ok sc) :
    sc.map Prod.fst = crits.map Prod.fst := by
  have h2 := scoreAll_ok_forall2 h
  clear h
  induction h2 with
  | nil => rfl
  | cons hr _ ih => simp [hr.1, ih]

theorem process_single_ok_elim {e : Evaluation} {cfg : Config} {lmp : LMP} {dp : Datapoint}
    {p : List (String × PyVal)} {outs : List PyVal} {sc : List (String × List ℚ)}
    (h : e.process_single cfg lmp dp p = .ok (outs, sc)) :
    ∃ out, invokeLmp cfg lmp dp p = .ok out ∧ outs = normalizeOutput out ∧
      ((e.criteria.isEmpty ∧ sc = []) ∨
        (¬ e.criteria.isEmpty ∧ scoreAll dp e.criteria outs = .ok sc)) := by
  unfold Evaluation.process_single at h
  split at h
  · cases h
  · rename_i lmpOutput hi
    by_cases hc : e.criteria.isEmpty
    · rw [if_pos hc] at h
      cases h
      exact ⟨lmpOutput, hi, rfl, Or.inl ⟨hc, rfl⟩⟩
    · rw [if_neg hc] at h
      split at h
      · cases h
      · rename_i sc2 hs
        cases h
        exact ⟨lmpOutput, hi, rfl, Or.inr ⟨hc, hs⟩⟩

/-! Supporting lemmas about the completion-draining loop. -/

theorem runBody_ok_elim (e : Evaluation) (lmp : LMP) (p : List (String × PyVal)) (cfg : Config) :
    ∀ (dps : List Datapoint) (outAcc : List PyVal) (scAcc : List (String × List ℚ))
      (res : List PyVal × List (String × List ℚ)),
      runBody e lmp p cfg dps outAcc scAcc = .ok res →
      ∃ tasks : List (List PyVal × List (String × List ℚ)),
        List.Forall₂ (fun dp t => e.process_single cfg lmp dp p = .ok t) dps tasks ∧
        res.1 = outAcc ++ (tasks.map Prod.fst).flatten ∧
        res.2 = (tasks.map Prod.snd).foldl extendScores scAcc := by
  intro dps
  induction dps with
  | nil =>
    intro outAcc scAcc res h
    simp only [runBody] at h
    cases h
    exact ⟨[], List.Forall₂.nil, by simp, rfl⟩
  | cons dp rest ih =>
    intro outAcc scAcc res h
    rw [runBody] at h
    split at h
    · cases h
    · rename_i t hps
      split at h
      · cases h
      · obtain ⟨tasks, hf, h1, h2⟩ := ih _ _ _ h
        refine ⟨t :: tasks, List.Forall₂.cons hps hf, ?_, ?_⟩
        · rw [h1]
          simp [List.append_assoc]
        · rw [h2]
          simp

theorem runBody_error_of_mem (e : Evaluation) (lmp : LMP) (p : List (String × PyVal))
    (cfg : Config) :
    ∀ (dps : List Datapoint) (outAcc : List PyVal) (scAcc : List (String × List ℚ))
      {dp : Datapoint}, dp ∈ dps →
      (∃ m, e.process_single cfg lmp dp p = .error m) →
      ∃ m2, runBody e lmp p cfg dps outAcc scAcc = .error m2 := by
  intro dps
  induction dps with
  | nil => intro _ _ _ h _; cases h
  | cons d rest ih =>
    intro outAcc scAcc dp hmem herr
    cases hps : e.process_single cfg lmp d p with
    | error m => exact ⟨m, by simp [runBody, hps]⟩
    | ok t =>
      have hdp : dp ∈ rest := by
        rw [List.mem_cons] at hmem
        rcases hmem with hmem | hmem
        · obtain ⟨m, hm⟩ := herr
          rw [hmem] at hm
          rw [hm] at hps
          cases hps
        · exact hmem
      cases hd : displayStep e (extendScores scAcc t.2) t.1 with
      | error m3 => exact ⟨m3, by simp [runBody, hps, hd]⟩
      | ok u =>
        obtain ⟨m4, h4⟩ := ih (outAcc ++ t.1) (extendScores scAcc t.2) hdp herr
        exact ⟨m4, by simp [runBody, hps, hd, h4]⟩

/-- Unpacks a successful `Evaluation.run` into the result of the draining loop
and the record fields the source assigns. -/
theorem run_ok_elim (e : Evaluation) (lmp : LMP) (api_params : Option (List (String × PyVal)))
    (verbose : Bool) (spd : Int) (completed : List Datapoint) (cfg : Config) (t0 dt : Nat)
    (r : EvaluationRun)
    (h : (Evaluation.run e lmp api_params verbose spd completed cfg t0 dt).1 = .ok r) :
    ∃ res, runBody e lmp (runApiParamsDef e api_params spd) { verbose := verbose }
        completed [] [] = .ok res ∧
      r.outputs = res.1 ∧
      r.scores = (if e.criteria.isEmpty then [] else res.2) ∧
      r.api_params = runApiParamsDef e api_params spd ∧
      r.start_time = t0 ∧ r.end_time = some (t0 + dt) ∧ r.dataset = [] ∧ r.lmp = some lmp := by
  unfold Evaluation.run runToRecord at h
  simp only at h
  cases hb : runBody e lmp (runApiParamsDef e api_params spd) { verbose := verbose }
      completed [] [] with
  | error m => rw [hb] at h; cases h
  | ok res =>
    rw [hb] at h
    cases h
    exact ⟨res, rfl, rfl, rfl, rfl, rfl, rfl, rfl, rfl⟩

theorem forall2_mem_right {α β : Type} {r : α → β → Prop} :
    ∀ {as : List α} {bs : List β}, List.Forall₂ r as bs →
      ∀ {b : β}, b ∈ bs → ∃ a, a ∈ as ∧ r a b := by
  intro as bs h
  induction h with
  | nil => intro b hb; cases hb
  | cons hr _ ih =>
    intro b hb
    rw [List.mem_cons] at hb
    rcases hb with hb | hb
    · exact ⟨_, List.mem_cons_self _ _, hb ▸ hr⟩
    · obtain ⟨a, ha, hra⟩ := ih hb
      exact ⟨a, List.mem_cons_of_mem _ ha, hra⟩

/-- A failing draining loop makes the whole `run` raise. -/
theorem run_error_intro (e : Evaluation) (lmp : LMP) (api_params : Option (List (String × PyVal)))
    (verbose : Bool) (spd : Int) (completed : List Datapoint) (cfg : Config) (t0 dt : Nat)
    (m : String)
    (h : runBody e lmp (runApiParamsDef e api_params spd) { verbose := verbose }
        completed [] [] = .error m) :
    (Evaluation.run e lmp api_params verbose spd completed cfg t0 dt).1 = .error m := by
  unfold Evaluation.run runToRecord
  simp only
  rw [h]

/-- A failing LMP dispatch makes `_process_single` raise the same error. -/
theorem process_single_error_of_invoke {e : Evaluation} {cfg : Config} {lmp : LMP}
    {dp : Datapoint} {p : List (String × PyVal)} {m : String}
    (h : invokeLmp cfg lmp dp p = .error m) : e.process_single cfg lmp dp p = .error m := by
  unfold Evaluation.process_single
  rw [h]

/-- The dispatch of `_process_single` raises the invalid-input error on any
input that is neither a `list` nor a `dict`, independently of the
configuration, the LMP and the API parameters. -/
theorem invokeLmp_error_of_bad_input {cfg : Config} {lmp : LMP} {dp : Datapoint}
    {p : List (String × PyVal)} {inp : PyVal} (hinp : dictGet dp "input" = some inp)
    (h1 : ∀ xs, inp ≠ PyVal.vlist xs) (h2 : ∀ kvs, inp ≠ PyVal.vdict kvs) :
    invokeLmp cfg lmp dp p = .error ("Invalid input type: " ++ pyClassRepr (pyTypeName inp)) := by
  unfold invokeLmp
  rw [hinp]
  cases inp <;> first | rfl | exact absurd rfl (h1 _) | exact absurd rfl (h2 _)

/-- The list branch of `validate_criteria` on an all-callable list containing
an anonymous entry always raises the fixed lambda message. -/
theorem validateCriteriaList_anon :
    ∀ (cs : List RawCriterion) (acc : List (String × RawCriterion)),
      (∀ c ∈ cs, c.isCallable = true) →
      (∃ c ∈ cs, c.pyName = none ∨ c.pyName = some "<lambda>") →
      validateCriteriaList acc cs =
        .error "Each criterion in a list must have a name (not a lambda)" := by
  intro cs
  induction cs with
  | nil =>
    intro acc _ h
    obtain ⟨c, hc, _⟩ := h
    cases hc
  | cons c rest ih =>
    intro acc hcall hanon
    have hcallc : c.isCallable = true := hcall c (List.mem_cons_self _ _)
    have hcnf : ¬ c.isCallable = false := by rw [hcallc]; simp
    rw [validateCriteriaList, if_neg hcnf]
    split
    · rfl
    · rename_i n hn
      by_cases hl : n = "<lambda>"
      · rw [if_pos hl]
      · rw [if_neg hl]
        obtain ⟨c2, hc2, hanon2⟩ := hanon
        have hc2rest : c2 ∈ rest := by
          rw [List.mem_cons] at hc2
          rcases hc2 with rfl | h
          · rcases hanon2 with h | h
            · rw [hn] at h
              cases h
            · rw [hn] at h
              exact absurd (Option.some.inj h) hl
          · exact h
        exact ih _ (fun c3 h3 => hcall c3 (List.mem_cons_of_mem _ h3)) ⟨c2, hc2rest, hanon2⟩

/-- Lookup semantics of the Python dict merge: the override's entry wins. -/
theorem dictGet_pyDictMerge {α : Type} :
    ∀ (b a : List (String × α)), (b.map Prod.fst).Nodup → ∀ k,
      dictGet (pyDictMerge a b) k = ((dictGet b k).orElse fun _ => dictGet a k) := by
  intro b
  induction b with
  | nil => intro a _ k; rfl
  | cons kv rest ih =>
    intro a hnd k
    simp only [List.map_cons, List.nodup_cons] at hnd
    have hstep : pyDictMerge a (kv :: rest) = pyDictMerge (dictSet a kv.1 kv.2) rest := rfl
    rw [hstep, ih _ hnd.2 k]
    by_cases hk : kv.1 = k
    · subst hk
      have h1 : dictGet rest kv.1 = none := dictGet_eq_none hnd.1
      have h2 : dictGet (kv :: rest) kv.1 = some kv.2 := by simp [dictGet]
      rw [h1, h2, dictGet_dictSet_self]
      rfl
    · have h2 : dictGet (kv :: rest) k = dictGet rest k := by simp [dictGet, hk]
      rw [h2, dictGet_dictSet_ne _ _ _ _ fun hh => hk hh.symm]

theorem hasSubChars_head_not_mem {c : Char} {pat : List Char} :
    ∀ {s : List Char}, c ∉ s → hasSubChars (c :: pat) s = false := by
  intro s
  induction s with
  | nil => intro _; rfl
  | cons b bs ih =>
    intro h
    simp only [List.mem_cons, not_or] at h
    have hc : (c == b) = false := by
      rw [beq_eq_false_iff_ne]
      exact h.1
    simp [hasSubChars, leadsWith, hc, ih h.2]

theorem toList_append (a b : String) : (a ++ b).toList = a.toList ++ b.toList := by
  unfold String.toList
  exact String.data_append a b

/-- The fixed lambda-rejection message contains no `<class '...'>` rendering of
any type, because it contains no `<` at all. -/
theorem lambdaMsg_no_class (ty : String) :
    hasSub "Each criterion in a list must have a name (not a lambda)" (pyClassRepr ty) = false := by
  unfold hasSub pyClassRepr
  have h1 : "<class \x27".toList = '<' :: "class \x27".toList := by decide
  have hsplit : ("<class \x27" ++ ty ++ "\x27>").toList =
      '<' :: (("class \x27".toList ++ ty.toList) ++ "\x27>".toList) := by
    rw [toList_append, toList_append, h1]
    rfl
  rw [hsplit]
  exact hasSubChars_head_not_mem (by decide)

/-- Along a successful draining loop, each task's outputs are the datapoint's
`outputsOf` projection. -/
theorem tasks_fst_eq (e : Evaluation) (cfg : Config) (lmp : LMP)
    (p : List (String × PyVal)) :
    ∀ {dps : List Datapoint} {tasks : List (List PyVal × List (String × List ℚ))},
      List.Forall₂ (fun dp t => e.process_single cfg lmp dp p = .ok t) dps tasks →
      tasks.map Prod.fst = dps.map (outputsOf e cfg lmp p) := by
  intro dps tasks h
  induction h with
  | nil => rfl
  | cons hr _ ih =>
    simp only [List.map_cons, ih]
    congr 1
    unfold outputsOf
    rw [hr]

/-- Along a successful draining loop, each task's per-criterion score list is
the datapoint's `scoreListOf` projection. -/
theorem tasks_score_eq (e : Evaluation) (cfg : Config) (lmp : LMP)
    (p : List (String × PyVal)) (name : String) :
    ∀ {dps : List Datapoint} {tasks : List (List PyVal × List (String × List ℚ))},
      List.Forall₂ (fun dp t => e.process_single cfg lmp dp p = .ok t) dps tasks →
      tasks.map (fun t => dictGetD t.2 name []) =
        dps.map fun dp => scoreListOf e cfg lmp p dp name := by
  intro dps tasks h
  induction h with
  | nil => rfl
  | cons hr _ ih =>
    simp only [List.map_cons, ih]
    congr 1
    unfold scoreListOf
    rw [hr]

/-- Looking a criterion up in the score dict `_process_single` builds yields
exactly that criterion's coerced score list. -/
theorem scoreAll_lookup {dp : Datapoint} {outs : List PyVal}
    {crits : List (String × Criterion)} {sc : List (String × List ℚ)}
    (hnodup : (crits.map Prod.fst).Nodup) (h : scoreAll dp crits outs = .ok sc)
    {nc : String × Criterion} (hnc : nc ∈ crits) :
    ∃ vals, dictGet sc nc.1 = some vals ∧ scoreOutputs dp nc.2 outs = .ok vals ∧
      dictGetD sc nc.1 [] = vals := by
  have hkeys := scoreAll_keys h
  obtain ⟨nv, hnvmem, hrel⟩ := forall2_mem_left (scoreAll_ok_forall2 h) hnc
  have hscnd : (sc.map Prod.fst).Nodup := by rw [hkeys]; exact hnodup
  have hget : dictGet sc nc.1 = some nv.2 := by
    rw [← hrel.1]
    exact dictGet_of_mem_nodup hscnd hnvmem
  refine ⟨nv.2, hget, hrel.2, ?_⟩
  unfold dictGetD
  rw [hget]
  rfl

/-- On a successful task with criteria configured, the projections `outputsOf`
and `scoreListOf` recover the task's data, and the score list is pointwise the
float coercion of the criterion on the corresponding output. -/
theorem process_ok_score_facts {e : Evaluation} {cfg : Config} {lmp : LMP} {dp : Datapoint}
    {p : List (String × PyVal)} {t : List PyVal × List (String × List ℚ)}
    (hnodup : (e.criteria.map Prod.fst).Nodup) (hne : e.criteria.isEmpty = false)
    (ht : e.process_single cfg lmp dp p = .ok t) {nc : String × Criterion}
    (hnc : nc ∈ e.criteria) :
    outputsOf e cfg lmp p dp = t.1 ∧
    scoreListOf e cfg lmp p dp nc.1 = dictGetD t.2 nc.1 [] ∧
    List.Forall₂ (fun o v => pyFloat (nc.2 dp o) = .ok v)
      (outputsOf e cfg lmp p dp) (scoreListOf e cfg lmp p dp nc.1) := by
  have hout : outputsOf e cfg lmp p dp = t.1 := by
    unfold outputsOf
    rw [ht]
  have hsl : scoreListOf e cfg lmp p dp nc.1 = dictGetD t.2 nc.1 [] := by
    unfold scoreListOf
    rw [ht]
  obtain ⟨out, hi, houts, hOr⟩ :=
    process_single_ok_elim (show e.process_single cfg lmp dp p = .ok (t.1, t.2) from ht)
  rcases hOr with ⟨hemp, _⟩ | ⟨_, hsc⟩
  · rw [hne] at hemp
    cases hemp
  · obtain ⟨vals, _, hsout, hgetd⟩ := scoreAll_lookup hnodup hsc hnc
    refine ⟨hout, hsl, ?_⟩
    rw [hout, hsl, hgetd]
    exact scoreOutputs_ok_forall2 hsout

/-- A failing `scoreAll` makes `_process_single` raise the same error. -/
theorem process_single_error_of_scoreAll {e : Evaluation} {cfg : Config} {lmp : LMP}
    {dp : Datapoint} {p : List (String × PyVal)} {out : PyVal} {m : String}
    (hi : invokeLmp cfg lmp dp p = .ok out) (hne : e.criteria.isEmpty = false)
    (hsa : scoreAll dp e.criteria (normalizeOutput out) = .error m) :
    e.process_single cfg lmp dp p = .error m := by
  unfold Evaluation.process_single
  split
  · rename_i m2 hm2
    rw [hi] at hm2
    cases hm2
  · rename_i lmpOut hout
    rw [hi] at hout
    cases hout
    rw [if_neg (by simp [hne])]
    split
    · rename_i m3 hm3
      rw [hsa] at hm3
      cases hm3
      rfl
    · rename_i sc hsc
      rw [hsa] at hsc
      cases hsc

/-! The claims. -/

/-- C1 (code bug in the source): `run` constructs the `EvaluationRun` with the
keyword `inputs=self.dataset`; `inputs` is a read-only property rather than a
model field, and pydantic silently drops unknown keywords, so on this input —
an evaluation with a nonempty dataset whose run succeeds — the returned
record's `dataset` and `inputs` are both empty, even though the claim (and the
record's own design) requires `run.dataset` to equal the evaluation's dataset
and `run.inputs` to list each datapoint's input. -/
theorem claimC1_run_dataset_empty :
    ((Evaluation.run exEvalPlain exLmp7 none false 1 exEvalPlain.dataset
        { verbose := false } 0 1).1).map (fun r => (r.dataset, r.inputs)) = .ok ([], []) ∧
    exEvalPlain.dataset ≠ [] ∧
    (exEvalPlain.dataset.map fun d => dictGet d "input") =
      [some (PyVal.vlist [PyVal.vint 1])] := by
  refine ⟨rfl, ?_, rfl⟩
  simp [exEvalPlain]

/-- C4 counterexample: a tuple input is a Python `Sequence`, yet
`_process_single` raises the invalid-input error instead of spreading it as
positional arguments — the LMP itself accepts the spread call, so the failure
is the dispatcher's. This refutes the claim that every sequence input is
spread positionally. -/
theorem claimC4_counterexample :
    pyIsSequence (PyVal.vtuple [PyVal.vint 1]) = true ∧
    exEvalTuple.process_single { verbose := false } exLmp0 exDpTuple [] =
      .error "Invalid input type: <class \x27tuple\x27>" ∧
    exLmp0 { verbose := false } (LMPArgs.positional [PyVal.vint 1]) [] = .ok (PyVal.vint 0) :=
  ⟨rfl, rfl, rfl⟩

/-- C4 (amended): the Datapoint Processor spreads an input that is exactly a
`list` as positional arguments and exactly a `dict` as named arguments; an
input of any other type — including non-list sequences such as tuples and
strings — raises an invalid-input-type error naming the offending type, and a
datapoint with such an input aborts the whole run, so it contributes nothing
to the final outputs (the run returns none). -/
theorem claimC4_amended (e : Evaluation) (cfg : Config) (lmp : LMP) (dp : Datapoint)
    (p : List (String × PyVal)) (inp : PyVal) (hinp : dictGet dp "input" = some inp) :
    (∀ xs, inp = PyVal.vlist xs →
      invokeLmp cfg lmp dp p = lmp cfg (LMPArgs.positional xs) p) ∧
    (∀ kvs, inp = PyVal.vdict kvs →
      invokeLmp cfg lmp dp p = lmp cfg (LMPArgs.named kvs) p) ∧
    ((∀ xs, inp ≠ PyVal.vlist xs) → (∀ kvs, inp ≠ PyVal.vdict kvs) →
      invokeLmp cfg lmp dp p =
        .error ("Invalid input type: " ++ pyClassRepr (pyTypeName inp)) ∧
      (∃ m, e.process_single cfg lmp dp p = .error m) ∧
      ∀ api2 verbose spd completed cfg2 t0 dt, dp ∈ completed →
        ∃ m2, (Evaluation.run e lmp api2 verbose spd completed cfg2 t0 dt).1 = .error m2) := by
  refine ⟨?_, ?_, ?_⟩
  · intro xs hx
    subst hx
    unfold invokeLmp
    rw [hinp]
  · intro kvs hx
    subst hx
    unfold invokeLmp
    rw [hinp]
  · intro h1 h2
    have hbad : ∀ (cfg2 : Config) (p2 : List (String × PyVal)),
        invokeLmp cfg2 lmp dp p2 =
          .error ("Invalid input type: " ++ pyClassRepr (pyTypeName inp)) :=
      fun cfg2 p2 => invokeLmp_error_of_bad_input hinp h1 h2
    refine ⟨hbad cfg p, ⟨_, process_single_error_of_invoke (hbad cfg p)⟩, ?_⟩
    intro api2 verbose spd completed cfg2 t0 dt hdp
    obtain ⟨m2, hm2⟩ := runBody_error_of_mem e lmp (runApiParamsDef e api2 spd)
      { verbose := verbose } completed [] [] hdp
      ⟨_, process_single_error_of_invoke (hbad _ _)⟩
    exact ⟨m2, run_error_intro e lmp api2 verbose spd completed cfg2 t0 dt m2 hm2⟩

/-- Witness for the amended C4, at a datapoint whose input is the bare number
5: the dispatch raises and any run containing the datapoint fails. -/
theorem claimC4_witness :
    dictGet exDpNum "input" = some (PyVal.vint 5) ∧
    ((∀ xs, PyVal.vint 5 = PyVal.vlist xs →
        invokeLmp { verbose := false } exLmp0 exDpNum [] =
          exLmp0 { verbose := false } (LMPArgs.positional xs) []) ∧
     (∀ kvs, PyVal.vint 5 = PyVal.vdict kvs →
        invokeLmp { verbose := false } exLmp0 exDpNum [] =
          exLmp0 { verbose := false } (LMPArgs.named kvs) []) ∧
     ((∀ xs, PyVal.vint 5 ≠ PyVal.vlist xs) → (∀ kvs, PyVal.vint 5 ≠ PyVal.vdict kvs) →
        invokeLmp { verbose := false } exLmp0 exDpNum [] =
          .error ("Invalid input type: " ++ pyClassRepr (pyTypeName (PyVal.vint 5))) ∧
        (∃ m, exEvalPlain.process_single { verbose := false } exLmp0 exDpNum [] = .error m) ∧
        ∀ api2 verbose spd completed cfg2 t0 dt, exDpNum ∈ completed →
          ∃ m2, (Evaluation.run exEvalPlain exLmp0 api2 verbose spd completed cfg2 t0 dt).1 =
            .error m2)) :=
  ⟨rfl, claimC4_amended exEvalPlain { verbose := false } exLmp0 exDpNum [] (PyVal.vint 5) rfl⟩

/-- C5 counterexample: a lambda supplied in list form is rejected, but the
validation error is a fixed message that does not identify the offending
value's type (`function`, rendered `<class 'function'>`) in any form. This
refutes the "identifying the offending value's type" part of the claim. -/
theorem claimC5_counterexample :
    validate_criteria (CriteriaArg.ofList [lambdaCrit]) =
      .error "Each criterion in a list must have a name (not a lambda)" ∧
    lambdaCrit.typeName = "function" ∧
    hasSub "Each criterion in a list must have a name (not a lambda)"
      lambdaCrit.typeName = false ∧
    hasSub "Each criterion in a list must have a name (not a lambda)"
      (pyClassRepr lambdaCrit.typeName) = false := by
  exact ⟨rfl, rfl, by decide, by decide⟩

/-- C5 (amended): in list form, every criteria list whose entries are all
callable but which contains an anonymous entry (no `__name__`, or `__name__`
equal to `<lambda>`) is rejected at validation — but with the fixed message
"Each criterion in a list must have a name (not a lambda)", which does not
contain the `<class '...'>` rendering of any type. -/
theorem claimC5_amended (cs : List RawCriterion)
    (hcall : ∀ c ∈ cs, c.isCallable = true)
    (hanon : ∃ c ∈ cs, c.pyName = none ∨ c.pyName = some "<lambda>") :
    validate_criteria (CriteriaArg.ofList cs) =
      .error "Each criterion in a list must have a name (not a lambda)" ∧
    ∀ ty, hasSub "Each criterion in a list must have a name (not a lambda)"
      (pyClassRepr ty) = false :=
  ⟨validateCriteriaList_anon cs [] hcall hanon, lambdaMsg_no_class⟩

/-- Witness for the amended C5, on a list holding a named callable followed by
a lambda. -/
theorem claimC5_witness :
    (∀ c ∈ [namedCrit, lambdaCrit], c.isCallable = true) ∧
    (∃ c ∈ [namedCrit, lambdaCrit], c.pyName = none ∨ c.pyName = some "<lambda>") ∧
    (validate_criteria (CriteriaArg.ofList [namedCrit, lambdaCrit]) =
        .error "Each criterion in a list must have a name (not a lambda)" ∧
      ∀ ty, hasSub "Each criterion in a list must have a name (not a lambda)"
        (pyClassRepr ty) = false) :=
  ⟨by decide, by decide, claimC5_amended [namedCrit, lambdaCrit] (by decide) (by decide)⟩

/-- C7: the API parameters attached to the run record (and under which the
draining loop runs every task) are `default_api_params` merged with the
caller's `api_params`, the caller winning on every key conflict; when
`samples_per_datapoint > 1` the merged parameters' `n` field equals
`samples_per_datapoint`, otherwise `n` also follows the merge. -/
theorem claimC7 (e : Evaluation) (lmp : LMP) (api_params : Option (List (String × PyVal)))
    (verbose : Bool) (spd : Int) (completed : List Datapoint) (cfg : Config) (t0 dt : Nat)
    (hnodup : ((api_params.getD []).map Prod.fst).Nodup) :
    (∀ k, k ≠ "n" →
      dictGet (runApiParamsDef e api_params spd) k =
        ((dictGet (api_params.getD []) k).orElse fun _ => dictGet e.default_api_params k)) ∧
    (spd ≤ 1 →
      dictGet (runApiParamsDef e api_params spd) "n" =
        ((dictGet (api_params.getD []) "n").orElse fun _ =>
          dictGet e.default_api_params "n")) ∧
    (spd > 1 → dictGet (runApiParamsDef e api_params spd) "n" = some (PyVal.vint spd)) ∧
    (∀ r, (Evaluation.run e lmp api_params verbose spd completed cfg t0 dt).1 = .ok r →
      r.api_params = runApiParamsDef e api_params spd) ∧
    (Evaluation.run e lmp api_params verbose spd completed cfg t0 dt).1 =
      runToRecord e lmp (runApiParamsDef e api_params spd) { verbose := verbose }
        completed t0 dt := by
  refine ⟨?_, ?_, ?_, ?_, rfl⟩
  · intro k hk
    unfold runApiParamsDef
    by_cases hs : spd > 1
    · rw [if_pos hs, dictGet_dictSet_ne _ _ _ _ hk, dictGet_pyDictMerge _ _ hnodup]
    · rw [if_neg hs, dictGet_pyDictMerge _ _ hnodup]
  · intro hle
    have hs : ¬ spd > 1 := by omega
    unfold runApiParamsDef
    rw [if_neg hs, dictGet_pyDictMerge _ _ hnodup]
  · intro hs
    unfold runApiParamsDef
    rw [if_pos hs, dictGet_dictSet_self]
  · intro r h
    obtain ⟨res, _, _, _, hap, _, _, _, _⟩ :=
      run_ok_elim e lmp api_params verbose spd completed cfg t0 dt r h
    exact hap

/-- Witness for C7, with defaults, a conflicting caller override and
`samples_per_datapoint = 3`. -/
theorem claimC7_witness :
    (((some exApiOverride).getD []).map Prod.fst).Nodup ∧
    ((∀ k, k ≠ "n" →
        dictGet (runApiParamsDef exEvalDefaults (some exApiOverride) 3) k =
          ((dictGet ((some exApiOverride).getD []) k).orElse fun _ =>
            dictGet exEvalDefaults.default_api_params k)) ∧
      ((3 : Int) ≤ 1 →
        dictGet (runApiParamsDef exEvalDefaults (some exApiOverride) 3) "n" =
          ((dictGet ((some exApiOverride).getD []) "n").orElse fun _ =>
            dictGet exEvalDefaults.default_api_params "n")) ∧
      ((3 : Int) > 1 →
        dictGet (runApiParamsDef exEvalDefaults (some exApiOverride) 3) "n" =
          some (PyVal.vint 3)) ∧
      (∀ r, (Evaluation.run exEvalDefaults exLmp7 (some exApiOverride) false 3 [exDp]
          { verbose := false } 0 1).1 = .ok r →
        r.api_params = runApiParamsDef exEvalDefaults (some exApiOverride) 3) ∧
      (Evaluation.run exEvalDefaults exLmp7 (some exApiOverride) false 3 [exDp]
          { verbose := false } 0 1).1 =
        runToRecord exEvalDefaults exLmp7 (runApiParamsDef exEvalDefaults (some exApiOverride) 3)
          { verbose := false } [exDp] 0 1) :=
  ⟨by decide, claimC7 exEvalDefaults exLmp7 (some exApiOverride) false 3 [exDp]
    { verbose := false } 0 1 (by decide)⟩

/-- C8: the configuration returned by `run` carries the caller's pre-call
verbosity whatever happens (the restore sits in a `finally`), and the whole
body — hence every task — executes under a configuration whose verbosity is
the caller's `verbose` argument. -/
theorem claimC8 (e : Evaluation) (lmp : LMP) (api_params : Option (List (String × PyVal)))
    (verbose : Bool) (spd : Int) (completed : List Datapoint) (cfg : Config) (t0 dt : Nat) :
    ((Evaluation.run e lmp api_params verbose spd completed cfg t0 dt).2).verbose =
      cfg.verbose ∧
    (Evaluation.run e lmp api_params verbose spd completed cfg t0 dt).1 =
      runToRecord e lmp (runApiParamsDef e api_params spd) { verbose := verbose }
        completed t0 dt :=
  ⟨rfl, rfl⟩

/-- C9: a successful `run` stamps `end_time` with the later clock reading, at
or after `start_time`; if any task fails, `run` raises instead of returning a
record (so no record with an `end_time` is ever produced). -/
theorem claimC9 (e : Evaluation) (lmp : LMP) (api_params : Option (List (String × PyVal)))
    (verbose : Bool) (spd : Int) (completed : List Datapoint) (cfg : Config) (t0 dt : Nat) :
    (∀ r, (Evaluation.run e lmp api_params verbose spd completed cfg t0 dt).1 = .ok r →
      r.end_time = some (t0 + dt) ∧ r.start_time = t0 ∧ r.start_time ≤ t0 + dt) ∧
    ((∃ dp, dp ∈ completed ∧ ∃ m, e.process_single { verbose := verbose } lmp dp
        (runApiParamsDef e api_params spd) = .error m) →
      ∃ m2, (Evaluation.run e lmp api_params verbose spd completed cfg t0 dt).1 =
        .error m2) := by
  constructor
  · intro r h
    obtain ⟨res, _, _, _, _, hst, hend, _, _⟩ :=
      run_ok_elim e lmp api_params verbose spd completed cfg t0 dt r h
    refine ⟨hend, hst, ?_⟩
    rw [hst]
    omega
  · intro h
    obtain ⟨dp, hdp, herr⟩ := h
    obtain ⟨m2, hm2⟩ := runBody_error_of_mem e lmp (runApiParamsDef e api_params spd)
      { verbose := verbose } completed [] [] hdp herr
    exact ⟨m2, run_error_intro e lmp api_params verbose spd completed cfg t0 dt m2 hm2⟩

/-- C10: output normalization tests for the exact `list` type — any non-list
LMP return value (tuples and strings included) is wrapped as exactly one
output, contributing one entry to the outputs and one score per criterion,
while a `list` return value is taken as the outputs themselves. -/
theorem claimC10 (e : Evaluation) (cfg : Config) (lmp : LMP) (dp : Datapoint)
    (p : List (String × PyVal)) (v : PyVal)
    (hv : invokeLmp cfg lmp dp p = .ok v) (hnl : ∀ xs, v ≠ PyVal.vlist xs) :
    normalizeOutput v = [v] ∧
    (∀ outs sc, e.process_single cfg lmp dp p = .ok (outs, sc) →
      outs = [v] ∧ ∀ nv ∈ sc, nv.2.length = 1) ∧
    (∀ xs, normalizeOutput (PyVal.vlist xs) = xs) := by
  have hn1 : normalizeOutput v = [v] := by
    cases v <;> first | rfl | exact absurd rfl (hnl _)
  refine ⟨hn1, ?_, fun xs => rfl⟩
  intro outs sc h
  obtain ⟨out, hi, houts, hOr⟩ := process_single_ok_elim h
  rw [hv] at hi
  cases hi
  constructor
  · rw [houts, hn1]
  · intro nv hnv
    rcases hOr with ⟨_, hsc⟩ | ⟨_, hsc⟩
    · rw [hsc] at hnv
      cases hnv
    · obtain ⟨nc, hncmem, hrel⟩ := forall2_mem_right (scoreAll_ok_forall2 hsc) hnv
      have hlen := (scoreOutputs_ok_forall2 hrel.2).length_eq
      rw [houts, hn1] at hlen
      exact hlen.symm

/-- Witness for C10: the LMP returns a tuple, which is wrapped as one output
and receives one score from the configured criterion. -/
theorem claimC10_witness :
    invokeLmp { verbose := false } exLmpTup exDp [] = .ok (PyVal.vtuple [PyVal.vint 1]) ∧
    (∀ xs, PyVal.vtuple [PyVal.vint 1] ≠ PyVal.vlist xs) ∧
    (normalizeOutput (PyVal.vtuple [PyVal.vint 1]) = [PyVal.vtuple [PyVal.vint 1]] ∧
      (∀ outs sc,
        exEvalScored.process_single { verbose := false } exLmpTup exDp [] = .ok (outs, sc) →
        outs = [PyVal.vtuple [PyVal.vint 1]] ∧ ∀ nv ∈ sc, nv.2.length = 1) ∧
      (∀ xs, normalizeOutput (PyVal.vlist xs) = xs)) :=
  ⟨rfl, fun _ h => PyVal.noConfusion h,
    claimC10 exEvalScored { verbose := false } exLmpTup exDp [] (PyVal.vtuple [PyVal.vint 1])
      rfl (fun _ h => PyVal.noConfusion h)⟩

/-- C2: with criteria configured, on a successful run every criterion's score
list has length equal to the total output count, its multiset of values is the
multiset — over the dataset — of that datapoint's coerced scores, and each of
those per-datapoint score lists is pointwise `float(criteria[name](datapoint,
output))` over the datapoint's outputs; the outputs themselves are, as a
multiset, the dataset's outputs. -/
theorem claimC2 (e : Evaluation) (lmp : LMP) (api_params : Option (List (String × PyVal)))
    (verbose : Bool) (spd : Int) (completed : List Datapoint) (cfg : Config) (t0 dt : Nat)
    (r : EvaluationRun)
    (hperm : completed.Perm e.dataset)
    (hnodup : (e.criteria.map Prod.fst).Nodup)
    (hcrit : e.criteria ≠ [])
    (hok : (Evaluation.run e lmp api_params verbose spd completed cfg t0 dt).1 = .ok r) :
    r.outputs.Perm ((e.dataset.map fun dp =>
      outputsOf e { verbose := verbose } lmp (runApiParamsDef e api_params spd) dp).flatten) ∧
    ∀ nc ∈ e.criteria,
      (dictGetD r.scores nc.1 []).length = r.outputs.length ∧
      (dictGetD r.scores nc.1 []).Perm ((e.dataset.map fun dp =>
        scoreListOf e { verbose := verbose } lmp (runApiParamsDef e api_params spd)
          dp nc.1).flatten) ∧
      ∀ dp ∈ e.dataset,
        List.Forall₂ (fun o v => pyFloat (nc.2 dp o) = .ok v)
          (outputsOf e { verbose := verbose } lmp (runApiParamsDef e api_params spd) dp)
          (scoreListOf e { verbose := verbose } lmp (runApiParamsDef e api_params spd)
            dp nc.1) := by
  have hne : e.criteria.isEmpty = false := by
    cases hc : e.criteria with
    | nil => exact absurd hc hcrit
    | cons a l => rfl
  obtain ⟨res, hb, houts, hscores, _, _, _, _, _⟩ :=
    run_ok_elim e lmp api_params verbose spd completed cfg t0 dt r hok
  obtain ⟨tasks, hf, h1, h2⟩ := runBody_ok_elim e lmp (runApiParamsDef e api_params spd)
    { verbose := verbose } completed [] [] res hb
  have hmap1 := tasks_fst_eq e { verbose := verbose } lmp (runApiParamsDef e api_params spd) hf
  have houtputs : r.outputs = (completed.map
      (outputsOf e { verbose := verbose } lmp (runApiParamsDef e api_params spd))).flatten := by
    rw [houts, h1, hmap1]
    rfl
  have hfacts : ∀ dp ∈ completed, ∀ nc ∈ e.criteria,
      List.Forall₂ (fun o v => pyFloat (nc.2 dp o) = .ok v)
        (outputsOf e { verbose := verbose } lmp (runApiParamsDef e api_params spd) dp)
        (scoreListOf e { verbose := verbose } lmp (runApiParamsDef e api_params spd)
          dp nc.1) := by
    intro dp hdp nc hnc
    obtain ⟨t, _, hrel⟩ := forall2_mem_left hf hdp
    exact (process_ok_score_facts hnodup hne hrel hnc).2.2
  constructor
  · rw [houtputs]
    exact perm_flatten_of_perm (hperm.map _)
  · intro nc hnc
    have hk : nc.1 ∈ e.criteria.map Prod.fst := List.mem_map_of_mem Prod.fst hnc
    have hscores2 : r.scores = res.2 := by
      rw [hscores]
      simp [hne]
    have hkeys : ∀ t2 ∈ tasks.map Prod.snd, t2.map Prod.fst = e.criteria.map Prod.fst := by
      intro t2 ht2
      rw [List.mem_map] at ht2
      obtain ⟨t, htmem, rfl⟩ := ht2
      obtain ⟨dp, _, hrel⟩ := forall2_mem_right hf htmem
      obtain ⟨out, _, _, hOr⟩ := process_single_ok_elim
        (show e.process_single { verbose := verbose } lmp dp
          (runApiParamsDef e api_params spd) = .ok (t.1, t.2) from hrel)
      rcases hOr with ⟨hemp, _⟩ | ⟨_, hsc⟩
      · rw [hne] at hemp
        cases hemp
      · exact scoreAll_keys hsc
    have hfold : dictGetD r.scores nc.1 [] =
        ((tasks.map Prod.snd).map fun t2 => dictGetD t2 nc.1 []).flatten := by
      rw [hscores2, h2, dictGetD_foldExtend hnodup hk (tasks.map Prod.snd) hkeys []]
      rfl
    have hmap2 : (tasks.map Prod.snd).map (fun t2 => dictGetD t2 nc.1 []) =
        completed.map fun dp => scoreListOf e { verbose := verbose } lmp
          (runApiParamsDef e api_params spd) dp nc.1 := by
      rw [List.map_map]
      exact tasks_score_eq e { verbose := verbose } lmp (runApiParamsDef e api_params spd)
        nc.1 hf
    refine ⟨?_, ?_, ?_⟩
    · rw [hfold, hmap2, houtputs, List.length_flatten, List.length_flatten,
        List.map_map, List.map_map]
      congr 1
      apply List.map_congr_left
      intro dp hdp
      exact ((hfacts dp hdp nc hnc).length_eq).symm
    · rw [hfold, hmap2]
      exact perm_flatten_of_perm (hperm.map _)
    · intro dp hdp
      exact hfacts dp (hperm.mem_iff.mpr hdp) nc hnc

/-- Witness for C2: one datapoint, one criterion returning 2, LMP returning 7;
the run record's score list under `c` is `[2.0]`, of length 1 like the
outputs. -/
theorem claimC2_witness :
    exEvalScored.dataset.Perm exEvalScored.dataset ∧
    (exEvalScored.criteria.map Prod.fst).Nodup ∧
    exEvalScored.criteria ≠ [] ∧
    (Evaluation.run exEvalScored exLmp7 none false 1 exEvalScored.dataset
        { verbose := false } 0 1).1 = .ok exRunC2 ∧
    (exRunC2.outputs.Perm ((exEvalScored.dataset.map fun dp =>
        outputsOf exEvalScored { verbose := false } exLmp7
          (runApiParamsDef exEvalScored none 1) dp).flatten) ∧
      ∀ nc ∈ exEvalScored.criteria,
        (dictGetD exRunC2.scores nc.1 []).length = exRunC2.outputs.length ∧
        (dictGetD exRunC2.scores nc.1 []).Perm ((exEvalScored.dataset.map fun dp =>
          scoreListOf exEvalScored { verbose := false } exLmp7
            (runApiParamsDef exEvalScored none 1) dp nc.1).flatten) ∧
        ∀ dp ∈ exEvalScored.dataset,
          List.Forall₂ (fun o v => pyFloat (nc.2 dp o) = .ok v)
            (outputsOf exEvalScored { verbose := false } exLmp7
              (runApiParamsDef exEvalScored none 1) dp)
            (scoreListOf exEvalScored { verbose := false } exLmp7
              (runApiParamsDef exEvalScored none 1) dp nc.1)) :=
  ⟨List.Perm.refl _, by decide, by simp [exEvalScored], rfl,
    claimC2 exEvalScored exLmp7 none false 1 exEvalScored.dataset { verbose := false } 0 1
      exRunC2 (List.Perm.refl _) (by decide) (by simp [exEvalScored]) rfl⟩

/-- C3: with no criteria, a successful run's outputs length is the sum over
the dataset of each datapoint's normalized output count, and the scores
mapping is empty. -/
theorem claimC3 (e : Evaluation) (lmp : LMP) (api_params : Option (List (String × PyVal)))
    (verbose : Bool) (spd : Int) (completed : List Datapoint) (cfg : Config) (t0 dt : Nat)
    (r : EvaluationRun)
    (hperm : completed.Perm e.dataset)
    (hcrit : e.criteria = [])
    (hok : (Evaluation.run e lmp api_params verbose spd completed cfg t0 dt).1 = .ok r) :
    r.outputs.length = (e.dataset.map fun dp =>
      (outputsOf e { verbose := verbose } lmp
        (runApiParamsDef e api_params spd) dp).length).sum ∧
    r.scores = [] := by
  have hempty : e.criteria.isEmpty = true := by
    rw [hcrit]
    rfl
  obtain ⟨res, hb, houts, hscores, _, _, _, _, _⟩ :=
    run_ok_elim e lmp api_params verbose spd completed cfg t0 dt r hok
  obtain ⟨tasks, hf, h1, h2⟩ := runBody_ok_elim e lmp (runApiParamsDef e api_params spd)
    { verbose := verbose } completed [] [] res hb
  constructor
  · have hmap1 := tasks_fst_eq e { verbose := verbose } lmp
      (runApiParamsDef e api_params spd) hf
    rw [houts, h1, hmap1]
    show ((completed.map _).flatten).length = _
    rw [List.length_flatten, List.map_map]
    exact (hperm.map _).sum_eq
  · rw [hscores, if_pos hempty]

/-- Witness for C3: one datapoint, the LMP returns a two-element list, so the
output count is 2 and the scores mapping is empty. -/
theorem claimC3_witness :
    exEvalPlain.dataset.Perm exEvalPlain.dataset ∧
    exEvalPlain.criteria = [] ∧
    (Evaluation.run exEvalPlain exLmpPair none false 1 exEvalPlain.dataset
        { verbose := false } 0 1).1 = .ok exRunC3 ∧
    (exRunC3.outputs.length = (exEvalPlain.dataset.map fun dp =>
        (outputsOf exEvalPlain { verbose := false } exLmpPair
          (runApiParamsDef exEvalPlain none 1) dp).length).sum ∧
      exRunC3.scores = []) :=
  ⟨List.Perm.refl _, rfl, rfl,
    claimC3 exEvalPlain exLmpPair none false 1 exEvalPlain.dataset { verbose := false } 0 1
      exRunC3 (List.Perm.refl _) rfl rfl⟩

/-- C6: every recorded score is the float coercion of the criterion's return
value on the corresponding output, and a criterion result that cannot be
converted to a number makes `_process_single` raise a scoring error and the
whole run fail — no score (zero or otherwise) is recorded. -/
theorem claimC6 (e : Evaluation) (lmp : LMP) (api_params : Option (List (String × PyVal)))
    (verbose : Bool) (spd : Int) (completed : List Datapoint) (cfg : Config) (t0 dt : Nat)
    (nc : String × Criterion) (dp : Datapoint)
    (hnodup : (e.criteria.map Prod.fst).Nodup) (hnc : nc ∈ e.criteria)
    (hdp : dp ∈ completed) :
    (∀ outs sc, e.process_single { verbose := verbose } lmp dp
        (runApiParamsDef e api_params spd) = .ok (outs, sc) →
      ∃ vals, dictGet sc nc.1 = some vals ∧
        List.Forall₂ (fun o v => pyFloat (nc.2 dp o) = .ok v) outs vals) ∧
    (∀ out o, invokeLmp { verbose := verbose } lmp dp
        (runApiParamsDef e api_params spd) = .ok out →
      o ∈ normalizeOutput out → (∀ q, pyFloat (nc.2 dp o) ≠ .ok q) →
      (∃ m, e.process_single { verbose := verbose } lmp dp
        (runApiParamsDef e api_params spd) = .error m) ∧
      ∃ m2, (Evaluation.run e lmp api_params verbose spd completed cfg t0 dt).1 =
        .error m2) := by
  have hne : e.criteria.isEmpty = false := by
    cases hc : e.criteria with
    | nil => rw [hc] at hnc; cases hnc
    | cons a l => rfl
  constructor
  · intro outs sc h
    obtain ⟨out, _, _, hOr⟩ := process_single_ok_elim h
    rcases hOr with ⟨hemp, _⟩ | ⟨_, hsc⟩
    · rw [hne] at hemp
      cases hemp
    · obtain ⟨vals, hget, hsout, _⟩ := scoreAll_lookup hnodup hsc hnc
      exact ⟨vals, hget, scoreOutputs_ok_forall2 hsout⟩
  · intro out o hi ho hbad
    have hserr : ∃ m, scoreOutputs dp nc.2 (normalizeOutput out) = .error m :=
      exceptMapList_error_of_mem ho hbad
    obtain ⟨m, hm2⟩ := hserr
    have hsaerr : ∃ m3, scoreAll dp e.criteria (normalizeOutput out) = .error m3 := by
      apply exceptMapList_error_of_mem hnc
      intro nv hcontra
      rw [hm2] at hcontra
      simp [Except.map] at hcontra
    obtain ⟨m3, hsa⟩ := hsaerr
    have hps := process_single_error_of_scoreAll (e := e) hi hne hsa
    refine ⟨⟨m3, hps⟩, ?_⟩
    obtain ⟨m4, hm4⟩ := runBody_error_of_mem e lmp (runApiParamsDef e api_params spd)
      { verbose := verbose } completed [] [] hdp ⟨m3, hps⟩
    exact ⟨m4, run_error_intro e lmp api_params verbose spd completed cfg t0 dt m4 hm4⟩

/-- Witness for C6, with a criterion returning `None`: the well-typed branch
holds vacuously interesting facts and the failing branch makes the run
raise. -/
theorem claimC6_witness :
    (exEvalBad.criteria.map Prod.fst).Nodup ∧
    ("c", exCritNone) ∈ exEvalBad.criteria ∧
    exDp ∈ [exDp] ∧
    ((∀ outs sc, exEvalBad.process_single { verbose := false } exLmp7 exDp
        (runApiParamsDef exEvalBad none 1) = .ok (outs, sc) →
      ∃ vals, dictGet sc ("c", exCritNone).1 = some vals ∧
        List.Forall₂ (fun o v => pyFloat (("c", exCritNone).2 exDp o) = .ok v) outs vals) ∧
    (∀ out o, invokeLmp { verbose := false } exLmp7 exDp
        (runApiParamsDef exEvalBad none 1) = .ok out →
      o ∈ normalizeOutput out → (∀ q, pyFloat (("c", exCritNone).2 exDp o) ≠ .ok q) →
      (∃ m, exEvalBad.process_single { verbose := false } exLmp7 exDp
        (runApiParamsDef exEvalBad none 1) = .error m) ∧
      ∃ m2, (Evaluation.run exEvalBad exLmp7 none false 1 [exDp]
        { verbose := false } 0 1).1 = .error m2)) :=
  ⟨by decide, List.Mem.head _, List.Mem.head _,
    claimC6 exEvalBad exLmp7 none false 1 [exDp] { verbose := false } 0 1
      ("c", exCritNone) exDp (by decide) (List.Mem.head _) (List.Mem.head _)⟩

end Ell
